import Mathlib

/-!
Shallow embedding of the threaded-messaging core of the repository
(`Django-signals_orm-0x04/messaging/`): the `Message` / `MessageHistory` /
`Notification` data model (`models.py`), the signal handlers
(`signals.py`: `create_message_notification`, `log_message_edit`,
`delete_user_related_data`) and the unread-messages manager
(`managers.py`).

Users are identified by username (`String`).  Message ids, history ids and
timestamps are drawn from a single monotone counter `Store.clock`, which
mirrors the fact that ids are generated at creation time and `timestamp` /
`edited_at` use `auto_now_add` (strictly increasing within one store).
-/

/-- A row of the `Message` table (`models.py`, class `Message`). -/
structure Msg where
  mid : Nat
  sender : String
  receiver : String
  content : String
  timestamp : Nat
  edited : Bool
  last_edited_at : Option Nat
  read : Bool
  parent : Option Nat
deriving DecidableEq

/-- A row of the `MessageHistory` table (`models.py`, class `MessageHistory`). -/
structure HistoryRow where
  hid : Nat
  message : Nat
  old_content : String
  edited_at : Nat
  edited_by : Option String
deriving DecidableEq

/-- A row of the `Notification` table (`models.py`, class `Notification`). -/
structure Notif where
  user : String
  message : Option Nat
  ntype : String
  content : String
deriving DecidableEq

/-- The entity store: the three tables plus the id/timestamp counter. -/
structure Store where
  messages : List Msg
  history : List HistoryRow
  notifications : List Notif
  clock : Nat
deriving DecidableEq

def emptyStore : Store := ⟨[], [], [], 0⟩

/-- Embeds `Message.objects.get(pk=i)` : look a message up by primary key. -/
def findMsg (s : Store) (i : Nat) : Option Msg :=
  s.messages.find? (fun m => m.mid == i)

/-- Embeds `Notification.objects.create(...)` : append a notification row. -/
def addNotif (s : Store) (u : String) (m : Option Nat) (ty c : String) : Store :=
  { s with notifications := s.notifications ++ [⟨u, m, ty, c⟩] }

/-- Embeds `Message.objects.create(...)` followed by the `post_save` handler
`create_message_notification` (`signals.py` lines 8-47): the new row has
`edited = False`, `read = False`; if it has a parent the notification type
is `reply` and, when the parent's sender differs from both the new sender
and the new receiver, that original sender is notified first; the receiver
is always notified once. -/
def createMessage (s : Store) (sender receiver content : String)
    (parent : Option Nat) : Store :=
  let m : Msg := ⟨s.clock, sender, receiver, content, s.clock, false, none, false, parent⟩
  let base : Store := { s with messages := s.messages ++ [m], clock := s.clock + 1 }
  match parent with
  | none =>
      addNotif base receiver (some m.mid) "message"
        ("You have a new message from " ++ sender)
  | some pid =>
      match findMsg s pid with
      | none =>
          addNotif base receiver (some m.mid) "reply"
            ("You have a new reply from " ++ sender)
      | some p =>
          let base2 : Store :=
            if p.sender ≠ receiver ∧ p.sender ≠ sender then
              addNotif base p.sender (some m.mid) "reply"
                (sender ++ " replied to your message")
            else base
          addNotif base2 receiver (some m.mid) "reply"
            ("You have a new reply from " ++ sender)

/-- Saving an existing message with (possibly) new content, i.e. the
`pre_save` handler `log_message_edit` (`signals.py` lines 66-100) followed
by the content write.  If the content is unchanged nothing happens; if it
changed, a `MessageHistory` row holding the old content is created before
the content is overwritten, `edited` is set and `last_edited_at` updated.
The history row's `edited_by` is the message's sender, as in the source. -/
def editMessage (s : Store) (mid : Nat) (newContent : String) : Store :=
  match findMsg s mid with
  | none => s
  | some old =>
      if old.content = newContent then s
      else
        { s with
          history := s.history ++ [⟨s.clock, mid, old.content, s.clock, some old.sender⟩],
          messages := s.messages.map (fun m =>
            if m.mid == mid then
              { m with content := newContent, edited := true, last_edited_at := some s.clock }
            else m),
          clock := s.clock + 1 }

/-- The error taxonomy of spec §7. -/
inductive EditError where
  | NotFoundError
  | ValidationError
  | IntegrityViolation
deriving DecidableEq

/-- The edit operation with its error behaviour made explicit.  The source's
only edit path is `log_message_edit`, whose missing-message branch is
`except Message.DoesNotExist: pass` — it raises nothing and changes
nothing, so the absent case returns `ok` with the store unchanged. -/
def editMessageE (s : Store) (mid : Nat) (newContent : String) :
    Except EditError Store :=
  match findMsg s mid with
  | none => Except.ok s
  | some _ => Except.ok (editMessage s mid newContent)

/-- Embeds `Message.mark_as_read` (`models.py`): set `read = True`. -/
def markAsRead (s : Store) (mid : Nat) : Store :=
  { s with messages := s.messages.map (fun m =>
      if m.mid == mid then { m with read := true } else m) }

/-- Embeds `Message.mark_as_unread` (`models.py`): set `read = False`. -/
def markAsUnread (s : Store) (mid : Nat) : Store :=
  { s with messages := s.messages.map (fun m =>
      if m.mid == mid then { m with read := false } else m) }

/-- Embeds `UnreadMessagesManager.unread_for_user` (`managers.py` lines 9-23):
filter `receiver = user, read = False`, ordered newest first
(`order_by('-timestamp')`; the store keeps creation order, so newest first
is the reverse). -/
def unread_for_user (s : Store) (u : String) : List Msg :=
  (s.messages.filter (fun m => m.receiver == u && m.read == false)).reverse

/-- Embeds `UnreadMessagesManager.unread_count_for_user` (`managers.py` lines 24-37). -/
def unread_count_for_user (s : Store) (u : String) : Nat :=
  (s.messages.filter (fun m => m.receiver == u && m.read == false)).length

/-- The store after `UnreadMessagesManager.mark_all_read_for_user`
(`managers.py` lines 56-69): `update(read=True)` on the unread rows of `u`. -/
def markAllReadStore (s : Store) (u : String) : Store :=
  { s with messages := s.messages.map (fun m =>
      if m.receiver == u && m.read == false then { m with read := true } else m) }

/-- The return value of `mark_all_read_for_user`: `update` reports the
number of rows it matched. -/
def markAllReadCount (s : Store) (u : String) : Nat :=
  (s.messages.filter (fun m => m.receiver == u && m.read == false)).length

/-- Embeds `Message.get_thread_root` (`models.py` lines 81-86), which walks `parent`
links until none is left.  The source is an unguarded `while` loop; the
embedding spends one unit of fuel per step, `none` meaning the walk did
not finish within the given fuel. -/
def getRootFuel : Nat → Store → Msg → Option Msg
  | 0, _, _ => none
  | n + 1, s, m =>
      match m.parent with
      | none => some m
      | some pid =>
          match findMsg s pid with
          | none => none
          | some p => getRootFuel n s p

/-- Holds iff `get_thread_root` terminates on `m`, i.e. iff some finite fuel suffices. -/
def RootWalkTerminates (s : Store) (m : Msg) : Prop :=
  ∃ n, (getRootFuel n s m).isSome

/-- Embeds `Message.replies` / `get_all_replies`: the direct replies of a message. -/
def directReplies (s : Store) (mid : Nat) : List Msg :=
  s.messages.filter (fun m => m.parent == some mid)

/-- Embeds `Message.get_total_reply_count` (`models.py` lines 101-108):
`count = self.replies.count()` plus the recursive totals of each reply,
with fuel standing for the recursion depth available. -/
def totalReplyCount : Nat → Store → Nat → Nat
  | 0, _, _ => 0
  | n + 1, s, mid =>
      (directReplies s mid).length +
        ((directReplies s mid).map (fun r => totalReplyCount n s r.mid)).sum

/-- The parent row of a message, if any. -/
def parentOf (s : Store) (m : Msg) : Option Msg :=
  m.parent.bind (findMsg s)

/-- Whether one of the first three parent links of `x` reaches `rootMid`:
exactly the `Q(parent_message=root) | Q(parent_message__parent_message=root)
| Q(parent_message__parent_message__parent_message=root)` joins of
`get_thread_messages`. -/
def withinDepth3 (s : Store) (rootMid : Nat) (x : Msg) : Bool :=
  x.mid == rootMid ||
    (match parentOf s x with
     | none => false
     | some p1 =>
         p1.mid == rootMid ||
           (match parentOf s p1 with
            | none => false
            | some p2 =>
                p2.mid == rootMid ||
                  (match parentOf s p2 with
                   | none => false
                   | some p3 => p3.mid == rootMid)))

/-- Stable insertion into a timestamp-sorted list (`order_by('timestamp')`). -/
def insertByTs (m : Msg) : List Msg → List Msg
  | [] => [m]
  | x :: xs =>
      if x.timestamp ≤ m.timestamp then x :: insertByTs m xs
      else m :: x :: xs

/-- Ascending sort by `timestamp`. -/
def sortByTimestamp (l : List Msg) : List Msg :=
  l.foldr insertByTs []

/-- Embeds `Message.get_thread_messages` (`models.py` lines 110-123): resolve the
thread root, then select the root together with the rows reachable from it
through at most three `parent_message` joins, ordered by creation time
ascending. -/
def get_thread_messages (s : Store) (m : Msg) : List Msg :=
  match getRootFuel s.clock s m with
  | none => []
  | some root => sortByTimestamp (s.messages.filter (withinDepth3 s root.mid))

/-- One step of the cascading delete: a row is kept iff it is not seeded
for deletion and its parent, if any, was kept. -/
def cascadeStep (seed : Msg → Bool) (acc : List Msg) (m : Msg) : List Msg :=
  if seed m then acc
  else
    match m.parent with
    | none => acc ++ [m]
    | some pid => if acc.any (fun x => x.mid == pid) then acc ++ [m] else acc

/-- The messages surviving `delete()` of every row matching `seed`,
together with the `on_delete=CASCADE` propagation through `parent_message`
(rows are stored in creation order, parents before children). -/
def cascadeSurvivors (seed : Msg → Bool) (l : List Msg) : List Msg :=
  l.foldl (cascadeStep seed) []

/-- Cascade-delete every message matching `seed`; `MessageHistory` and
`Notification` rows attached to deleted messages go with them
(`on_delete=CASCADE` on their `message` foreign keys). -/
def deleteMessages (seed : Msg → Bool) (s : Store) : Store :=
  { s with
    messages := cascadeSurvivors seed s.messages,
    history := s.history.filter (fun h =>
      (cascadeSurvivors seed s.messages).any (fun m => m.mid == h.message)),
    notifications := s.notifications.filter (fun n =>
      match n.message with
      | none => true
      | some mid0 => (cascadeSurvivors seed s.messages).any (fun m => m.mid == mid0)) }

/-- Embeds `deleteMessage(messageId)`: cascade-delete one message and its subtree. -/
def deleteMessage (s : Store) (mid : Nat) : Store :=
  deleteMessages (fun m => m.mid == mid) s

/-- Embeds `Notification.objects.filter(user=instance).delete()`. -/
def purgeNotifs (u : String) (s : Store) : Store :=
  { s with notifications := s.notifications.filter (fun n => n.user != u) }

/-- Embeds `MessageHistory.objects.filter(edited_by=instance).update(edited_by=None)`. -/
def anonHistory (u : String) (s : Store) : Store :=
  { s with history := s.history.map (fun h =>
      if h.edited_by == some u then { h with edited_by := none } else h) }

/-- Embeds `delete_user_related_data` (`signals.py` lines 103-142): delete the
messages `u` sent, then the messages `u` received (each cascading), delete
the notifications targeting `u`, and null out `edited_by` on the history
rows `u` authored (which survive unless their message was deleted). -/
def deleteUser (s : Store) (u : String) : Store :=
  anonHistory u (purgeNotifs u
    (deleteMessages (fun m => m.receiver == u)
      (deleteMessages (fun m => m.sender == u) s)))

/-- The states reachable from the empty store through the public
operations.  `createMessage` may only attach to an existing parent
(foreign-key integrity: "a message's parent, if present, must exist at
creation time"). -/
inductive Reachable : Store → Prop
  | empty : Reachable emptyStore
  | create (s : Store) (sender receiver content : String) (parent : Option Nat)
      (h : Reachable s)
      (hp : ∀ pid, parent = some pid → ∃ p ∈ s.messages, p.mid = pid) :
      Reachable (createMessage s sender receiver content parent)
  | edit (s : Store) (mid : Nat) (c : String) (h : Reachable s) :
      Reachable (editMessage s mid c)
  | delMsg (s : Store) (mid : Nat) (h : Reachable s) :
      Reachable (deleteMessage s mid)
  | delUser (s : Store) (u : String) (h : Reachable s) :
      Reachable (deleteUser s u)
  | markR (s : Store) (mid : Nat) (h : Reachable s) :
      Reachable (markAsRead s mid)
  | markU (s : Store) (mid : Nat) (h : Reachable s) :
      Reachable (markAsUnread s mid)
  | markAll (s : Store) (u : String) (h : Reachable s) :
      Reachable (markAllReadStore s u)

/-- Structural well-formedness: message ids strictly increase along the
list (creation order), are below the clock, and every parent link points
to an earlier, existing message. -/
def WF (s : Store) : Prop :=
  s.messages.Pairwise (fun a b => a.mid < b.mid) ∧
  (∀ m ∈ s.messages, m.mid < s.clock) ∧
  (∀ m ∈ s.messages, ∀ pid, m.parent = some pid →
    ∃ p ∈ s.messages, p.mid = pid ∧ pid < m.mid)

/-- The full reachable-state invariant: well-formedness, every history row
points at an existing message, and `edited` is true exactly when a history
row for the message exists. -/
def StoreInv (s : Store) : Prop :=
  WF s ∧
  (∀ h ∈ s.history, ∃ m ∈ s.messages, h.message = m.mid) ∧
  (∀ m ∈ s.messages, m.edited = true ↔ ∃ h ∈ s.history, h.message = m.mid)

/-- Invariant of the cascade fold: every accumulated survivor is not seeded
for deletion and its parent, if any, is itself an accumulated survivor. -/
def GoodAcc (seed : Msg → Bool) (acc : List Msg) : Prop :=
  ∀ x ∈ acc, seed x = false ∧ ∀ pid, x.parent = some pid → ∃ p ∈ acc, p.mid = pid

/-- The pure fan-out of `create_message_notification`: the notification rows
the handler appends for one new message (whose id is `s.clock`). -/
def creationNotifs (s : Store) (sender receiver : String) (parent : Option Nat) :
    List Notif :=
  match parent with
  | none =>
      [⟨receiver, some s.clock, "message", "You have a new message from " ++ sender⟩]
  | some pid =>
      match findMsg s pid with
      | none =>
          [⟨receiver, some s.clock, "reply", "You have a new reply from " ++ sender⟩]
      | some p =>
          (if p.sender ≠ receiver ∧ p.sender ≠ sender then
            [⟨p.sender, some s.clock, "reply", sender ++ " replied to your message"⟩]
           else []) ++
          [⟨receiver, some s.clock, "reply", "You have a new reply from " ++ sender⟩]

/-- A five-message chain: `m0 ← m1 ← m2 ← m3 ← m4`, each a reply to the
previous one, so `m4` sits at reply depth 4 below the root `m0`. -/
def chainS : Store :=
  createMessage
    (createMessage
      (createMessage
        (createMessage
          (createMessage emptyStore "a" "b" "m0" none)
          "b" "a" "m1" (some 0))
        "a" "b" "m2" (some 1))
      "b" "a" "m3" (some 2))
    "a" "b" "m4" (some 3)

/-- A message that is its own parent: corrupt data no public operation can
produce, used to probe `get_thread_root` on a cyclic parent chain. -/
def cycM : Msg := ⟨0, "a", "b", "c", 0, false, none, false, some 0⟩

/-- The store holding only the self-parented message `cycM`. -/
def cycS : Store := ⟨[cycM], [], [], 1⟩

/-- Scenario store: user `u` has received three messages, the first of
which has been read. -/
def scenS : Store :=
  markAsRead
    (createMessage
      (createMessage
        (createMessage emptyStore "a" "u" "one" none)
        "a" "u" "two" none)
      "a" "u" "three" none)
    0

/-- A message from `a` to `b` that was then edited once. -/
def editS : Store :=
  editMessage (createMessage emptyStore "a" "b" "x" none) 0 "y"

/-- A root message `a → b` answered by a reply `b → c`, so the root's
sender is neither the reply's sender nor its receiver. -/
def replyS : Store :=
  createMessage (createMessage emptyStore "a" "b" "hi" none) "b" "c" "yo" (some 0)

/-- Store used to exercise `deleteUser`: an edited message between `a` and
`b`, plus an unrelated message sent by `c`. -/
def duS : Store :=
  createMessage (editMessage (createMessage emptyStore "a" "b" "x" none) 0 "y")
    "c" "d" "z" none

/-! ## Basic shape lemmas -/

lemma addNotif_messages (s : Store) (u : String) (m : Option Nat) (ty c : String) :
    (addNotif s u m ty c).messages = s.messages := rfl

lemma createMessage_messages (s : Store) (sender receiver content : String)
    (parent : Option Nat) :
    (createMessage s sender receiver content parent).messages =
      s.messages ++ [⟨s.clock, sender, receiver, content, s.clock, false, none, false, parent⟩] := by
  unfold createMessage
  cases parent with
  | none => rfl
  | some pid =>
      cases hp : findMsg s pid with
      | none => simp only [hp]; rfl
      | some p => simp only [hp]; split <;> rfl

lemma createMessage_history (s : Store) (sender receiver content : String)
    (parent : Option Nat) :
    (createMessage s sender receiver content parent).history = s.history := by
  unfold createMessage
  cases parent with
  | none => rfl
  | some pid =>
      cases hp : findMsg s pid with
      | none => simp only [hp]; rfl
      | some p => simp only [hp]; split <;> rfl

lemma createMessage_clock (s : Store) (sender receiver content : String)
    (parent : Option Nat) :
    (createMessage s sender receiver content parent).clock = s.clock + 1 := by
  unfold createMessage
  cases parent with
  | none => rfl
  | some pid =>
      cases hp : findMsg s pid with
      | none => simp only [hp]; rfl
      | some p => simp only [hp]; split <;> rfl

lemma createMessage_notifications (s : Store) (sender receiver content : String)
    (parent : Option Nat) :
    (createMessage s sender receiver content parent).notifications =
      s.notifications ++ creationNotifs s sender receiver parent := by
  unfold createMessage creationNotifs
  cases parent with
  | none => rfl
  | some pid =>
      cases hp : findMsg s pid with
      | none => simp [hp, addNotif]
      | some p =>
          simp only [hp]
          split <;> simp [addNotif]

lemma findMsg_mem (s : Store) (i : Nat) (m : Msg) (h : findMsg s i = some m) :
    m ∈ s.messages ∧ m.mid = i := by
  refine ⟨List.mem_of_find?_eq_some h, ?_⟩
  have := List.find?_some h
  simpa using this

lemma findMsg_editMessage (s : Store) (mid : Nat) (c : String) (m : Msg)
    (h : findMsg s mid = some m) (hne : m.content ≠ c) :
    findMsg (editMessage s mid c) mid =
      some { m with content := c, edited := true, last_edited_at := some s.clock } := by
  unfold editMessage
  simp only [h]
  rw [if_neg hne]
  unfold findMsg
  show List.find? _ (s.messages.map _) = _
  rw [List.find?_map]
  have hpred : ((fun x : Msg => x.mid == mid) ∘ (fun m : Msg =>
      if m.mid == mid then
        { m with content := c, edited := true, last_edited_at := some s.clock }
      else m)) = (fun x : Msg => x.mid == mid) := by
    funext x
    by_cases hx : x.mid = mid <;> simp [hx]
  rw [hpred]
  have hmm := findMsg_mem s mid m h
  unfold findMsg at h
  rw [h]
  simp [hmm.2]

/-- C6 (counterexample): editing a message id that does not exist is *not*
rejected with `NotFoundError`; on the empty store it succeeds as a silent
no-op. -/
theorem C6_counterexample :
    editMessageE emptyStore 0 "x" = Except.ok emptyStore ∧
    editMessageE emptyStore 0 "x" ≠ Except.error EditError.NotFoundError := by
  refine ⟨rfl, ?_⟩
  intro hcontra
  rw [show editMessageE emptyStore 0 "x" = Except.ok emptyStore from rfl] at hcontra
  exact Except.noConfusion hcontra

/-- C6 (amended): for every message id that does not identify an existing
message, the edit path raises no error at all and changes nothing — the
`log_message_edit` handler swallows `Message.DoesNotExist` with `pass`, a
silent successful no-op rather than a `NotFoundError`. -/
theorem C6_missing_edit_silent (s : Store) (mid : Nat) (c : String)
    (h : findMsg s mid = none) : editMessageE s mid c = Except.ok s := by
  unfold editMessageE
  rw [h]

/-- Witness for `C6_missing_edit_silent` at the empty store. -/
theorem C6_missing_edit_silent_witness :
    editMessageE emptyStore 3 "y" = Except.ok emptyStore :=
  C6_missing_edit_silent emptyStore 3 "y" rfl

/-- C10: a newly created message is stored with `read = false` and
`edited = false`, it is returned by the unread query for its receiver, and
the receiver's unread count grows by exactly one. -/
theorem C10_new_message_unread (s : Store) (sender receiver content : String)
    (parent : Option Nat) :
    (createMessage s sender receiver content parent).messages =
      s.messages ++ [⟨s.clock, sender, receiver, content, s.clock, false, none, false, parent⟩] ∧
    (⟨s.clock, sender, receiver, content, s.clock, false, none, false, parent⟩ : Msg).read = false ∧
    (⟨s.clock, sender, receiver, content, s.clock, false, none, false, parent⟩ : Msg).edited = false ∧
    (⟨s.clock, sender, receiver, content, s.clock, false, none, false, parent⟩ : Msg) ∈
      unread_for_user (createMessage s sender receiver content parent) receiver ∧
    unread_count_for_user (createMessage s sender receiver content parent) receiver =
      unread_count_for_user s receiver + 1 := by
  refine ⟨createMessage_messages s sender receiver content parent, rfl, rfl, ?_, ?_⟩
  · unfold unread_for_user
    rw [createMessage_messages]
    rw [List.mem_reverse, List.mem_filter]
    refine ⟨List.mem_append_right _ (List.mem_singleton.mpr rfl), by simp⟩
  · unfold unread_count_for_user
    rw [createMessage_messages, List.filter_append]
    simp

/-- C3: editing an existing message with its current content is a complete
no-op (no history row, `edited` untouched); editing it with different
content appends exactly one history row whose `old_content` is the pre-edit
content (rows are appended, hence in chronological order), and the message
is stored with the new content and `edited = true`. -/
theorem C3_edit_history (s : Store) (mid : Nat) (c : String) (m : Msg)
    (h : findMsg s mid = some m) :
    (m.content = c → editMessage s mid c = s) ∧
    (m.content ≠ c →
      (editMessage s mid c).history =
        s.history ++ [⟨s.clock, mid, m.content, s.clock, some m.sender⟩] ∧
      findMsg (editMessage s mid c) mid =
        some { m with content := c, edited := true, last_edited_at := some s.clock }) := by
  constructor
  · intro he
    unfold editMessage
    simp only [h]
    rw [if_pos he]
  · intro hne
    refine ⟨?_, findMsg_editMessage s mid c m h hne⟩
    unfold editMessage
    simp only [h]
    rw [if_neg hne]

/-- Witness for `C3_edit_history`: one no-op edit and one real edit of the
single message of a concrete store. -/
theorem C3_edit_history_witness :
    editMessage (createMessage emptyStore "a" "b" "x" none) 0 "x" =
      createMessage emptyStore "a" "b" "x" none ∧
    (editMessage (createMessage emptyStore "a" "b" "x" none) 0 "y").history =
      (createMessage emptyStore "a" "b" "x" none).history ++ [⟨1, 0, "x", 1, some "a"⟩] :=
  ⟨(C3_edit_history (createMessage emptyStore "a" "b" "x" none) 0 "x"
      ⟨0, "a", "b", "x", 0, false, none, false, none⟩ rfl).1 rfl,
   ((C3_edit_history (createMessage emptyStore "a" "b" "x" none) 0 "y"
      ⟨0, "a", "b", "x", 0, false, none, false, none⟩ rfl).2 (by decide)).1⟩

lemma filter_markall_nil (l : List Msg) (u : String) :
    ((l.map (fun m => if m.receiver == u && m.read == false then { m with read := true } else m)).filter
      (fun m => m.receiver == u && m.read == false)) = [] := by
  rw [List.filter_eq_nil_iff]
  intro a ha
  rw [List.mem_map] at ha
  obtain ⟨x, hx, rfl⟩ := ha
  by_cases hc : x.receiver = u ∧ x.read = false
  · simp [hc.1, hc.2]
  · rw [not_and_or] at hc
    cases hc with
    | inl h1 => simp [h1]
    | inr h2 =>
        have hr : x.read = true := by
          cases hv : x.read
          · exact absurd hv h2
          · rfl
        simp [hr]

/-- C9: the unread query returns exactly the unread messages received by
`u`; the unread count is its size; `markAllRead` reports that count, flips
exactly those rows to read, and leaves the unread count at zero. -/
theorem C9_unread_queries (s : Store) (u : String) :
    (∀ m, m ∈ unread_for_user s u ↔ m ∈ s.messages ∧ m.receiver = u ∧ m.read = false) ∧
    unread_count_for_user s u = (unread_for_user s u).length ∧
    markAllReadCount s u = unread_count_for_user s u ∧
    unread_count_for_user (markAllReadStore s u) u = 0 ∧
    (∀ m ∈ s.messages,
      (if m.receiver == u && m.read == false then { m with read := true } else m) ∈
        (markAllReadStore s u).messages) := by
  refine ⟨?_, ?_, rfl, ?_, ?_⟩
  · intro m
    unfold unread_for_user
    rw [List.mem_reverse, List.mem_filter]
    simp
  · unfold unread_count_for_user unread_for_user
    rw [List.length_reverse]
  · unfold unread_count_for_user markAllReadStore
    rw [filter_markall_nil]
    rfl
  · intro m hm
    exact List.mem_map_of_mem _ hm

/-- Witness for `C9_unread_queries` on the three-message scenario store:
two unread messages remain, and after `markAllRead` none do. -/
theorem C9_unread_queries_witness :
    unread_count_for_user (markAllReadStore scenS "u") "u" = 0 ∧
    (⟨1, "a", "u", "two", 1, false, none, false, none⟩ : Msg) ∈ unread_for_user scenS "u" :=
  ⟨(C9_unread_queries scenS "u").2.2.2.1,
   ((C9_unread_queries scenS "u").1 _).mpr ⟨by decide, rfl, rfl⟩⟩

/-- C2: creation appends the fan-out rows of `create_message_notification`;
exactly one of them targets the receiver; with no parent the fan-out is a
single `message` notification; with a parent whose sender is neither the
new sender nor the new receiver the fan-out is exactly two rows, exactly
one of which targets that original sender, and otherwise it is a single
row. -/
theorem C2_notification_fanout (s : Store) (sender receiver content : String)
    (parent : Option Nat) :
    (createMessage s sender receiver content parent).notifications =
      s.notifications ++ creationNotifs s sender receiver parent ∧
    ((creationNotifs s sender receiver parent).filter
        (fun n => n.user == receiver)).length = 1 ∧
    (parent = none → (creationNotifs s sender receiver parent).length = 1) ∧
    (∀ pid p, parent = some pid → findMsg s pid = some p →
      ((p.sender ≠ receiver ∧ p.sender ≠ sender) →
        (creationNotifs s sender receiver parent).length = 2 ∧
        ((creationNotifs s sender receiver parent).filter
            (fun n => n.user == p.sender)).length = 1) ∧
      (¬(p.sender ≠ receiver ∧ p.sender ≠ sender) →
        (creationNotifs s sender receiver parent).length = 1)) := by
  refine ⟨createMessage_notifications s sender receiver content parent, ?_, ?_, ?_⟩
  · unfold creationNotifs
    cases parent with
    | none => simp
    | some pid =>
        cases hp : findMsg s pid with
        | none => simp [hp]
        | some p =>
            simp only [hp]
            by_cases hc : p.sender ≠ receiver ∧ p.sender ≠ sender
            · rw [if_pos hc]
              have h1 : (p.sender == receiver) = false := by
                simp [hc.1]
              simp [List.filter, h1]
            · rw [if_neg hc]
              simp
  · intro hnone
    subst hnone
    rfl
  · intro pid p hpar hfind
    subst hpar
    constructor
    · intro hc
      simp only [creationNotifs, hfind]
      rw [if_pos hc]
      constructor
      · rfl
      · have h1 : (receiver == p.sender) = false := by
          have : receiver ≠ p.sender := fun he => hc.1 he.symm
          simp [this]
        simp [List.filter, h1]
    · intro hc
      simp only [creationNotifs, hfind]
      rw [if_neg hc]
      rfl

/-- Witness for `C2_notification_fanout`: a reply whose parent was sent by
a third user produces exactly two notifications, one of them for that
original sender. -/
theorem C2_notification_fanout_witness :
    (creationNotifs (createMessage emptyStore "a" "b" "hi" none) "b" "c" (some 0)).length = 2 ∧
    ((creationNotifs (createMessage emptyStore "a" "b" "hi" none) "b" "c" (some 0)).filter
        (fun n => n.user == "a")).length = 1 :=
  ((C2_notification_fanout (createMessage emptyStore "a" "b" "hi" none) "b" "c" "yo"
      (some 0)).2.2.2 0 ⟨0, "a", "b", "hi", 0, false, none, false, none⟩ rfl rfl).1
    ⟨by decide, by decide⟩

/-- C1 (failing input): in the five-message chain `chainS`, message 4's
thread root is message 0, yet `get_thread_messages` started from the root
returns only messages 0-3 — the query joins `parent_message` at most three
levels deep, so replies at depth 4 and beyond are silently missing, while
the returned rows are indeed in ascending creation order. -/
theorem C1_depth_limit :
    ((findMsg chainS 0).map (fun r => (get_thread_messages chainS r).map Msg.mid)) =
      some [0, 1, 2, 3] ∧
    ((findMsg chainS 4).bind (fun m => (getRootFuel chainS.clock chainS m).map Msg.mid)) =
      some 0 := by
  decide

/-! ## Cascade-delete lemmas -/

lemma cascadeStep_cases (seed : Msg → Bool) (acc : List Msg) (m : Msg) :
    cascadeStep seed acc m = acc ∨
    (cascadeStep seed acc m = acc ++ [m] ∧ seed m = false ∧
      (∀ pid, m.parent = some pid → ∃ p ∈ acc, p.mid = pid)) := by
  by_cases hs : seed m = true
  · left
    unfold cascadeStep
    rw [if_pos hs]
  · have hsf : seed m = false := by
      cases hb : seed m
      · rfl
      · exact absurd hb hs
    cases hpar : m.parent with
    | none =>
        right
        refine ⟨?_, hsf, ?_⟩
        · unfold cascadeStep
          rw [if_neg hs]
          simp only [hpar]
        · intro pid hpid
          exact Option.noConfusion hpid
    | some pid =>
        by_cases ha : acc.any (fun x => x.mid == pid) = true
        · right
          refine ⟨?_, hsf, ?_⟩
          · unfold cascadeStep
            rw [if_neg hs]
            simp only [hpar]
            rw [if_pos ha]
          · intro pid2 hpid2
            cases hpid2
            obtain ⟨p, hp1, hp2⟩ := List.any_eq_true.mp ha
            exact ⟨p, hp1, by simpa using hp2⟩
        · left
          unfold cascadeStep
          rw [if_neg hs]
          simp only [hpar]
          rw [if_neg ha]

lemma cascadeStep_shape (seed : Msg → Bool) (acc : List Msg) (m : Msg) :
    ∃ u, cascadeStep seed acc m = acc ++ u ∧ u.Sublist [m] := by
  rcases cascadeStep_cases seed acc m with heq | ⟨heq, _, _⟩
  · exact ⟨[], by simpa using heq, List.nil_sublist _⟩
  · exact ⟨[m], heq, List.Sublist.refl _⟩

lemma foldl_cascade_shape (seed : Msg → Bool) :
    ∀ (l acc : List Msg), ∃ t, l.foldl (cascadeStep seed) acc = acc ++ t ∧ t.Sublist l := by
  intro l
  induction l with
  | nil => exact fun acc => ⟨[], by simp, List.nil_sublist _⟩
  | cons m l ih =>
      intro acc
      rw [List.foldl_cons]
      obtain ⟨u, hu, hus⟩ := cascadeStep_shape seed acc m
      obtain ⟨t, ht, hts⟩ := ih (cascadeStep seed acc m)
      refine ⟨u ++ t, ?_, ?_⟩
      · rw [ht, hu, List.append_assoc]
      · have hsub : (u ++ t).Sublist ([m] ++ l) := List.Sublist.append hus hts
        simpa using hsub

lemma cascadeSurvivors_sublist (seed : Msg → Bool) (l : List Msg) :
    (cascadeSurvivors seed l).Sublist l := by
  obtain ⟨t, ht, hts⟩ := foldl_cascade_shape seed l []
  unfold cascadeSurvivors
  rw [ht]
  simpa using hts

lemma cascadeStep_goodAcc (seed : Msg → Bool) {acc : List Msg} {m : Msg}
    (h : GoodAcc seed acc) : GoodAcc seed (cascadeStep seed acc m) := by
  rcases cascadeStep_cases seed acc m with heq | ⟨heq, hsf, hpar⟩
  · rw [heq]; exact h
  · rw [heq]
    intro x hx
    rcases List.mem_append.mp hx with hx1 | hx2
    · obtain ⟨h1, h2⟩ := h x hx1
      refine ⟨h1, fun pid hpid => ?_⟩
      obtain ⟨p, hp1, hp2⟩ := h2 pid hpid
      exact ⟨p, List.mem_append_left _ hp1, hp2⟩
    · rw [List.mem_singleton] at hx2
      subst hx2
      refine ⟨hsf, fun pid hpid => ?_⟩
      obtain ⟨p, hp1, hp2⟩ := hpar pid hpid
      exact ⟨p, List.mem_append_left _ hp1, hp2⟩

lemma foldl_goodAcc (seed : Msg → Bool) :
    ∀ (l acc : List Msg), GoodAcc seed acc →
      GoodAcc seed (l.foldl (cascadeStep seed) acc) := by
  intro l
  induction l with
  | nil => exact fun acc h => h
  | cons m l ih => exact fun acc h => ih _ (cascadeStep_goodAcc seed h)

lemma cascadeSurvivors_goodAcc (seed : Msg → Bool) (l : List Msg) :
    GoodAcc seed (cascadeSurvivors seed l) :=
  foldl_goodAcc seed l [] (fun x hx => absurd hx (List.not_mem_nil x))

lemma mem_cascadeSurvivors (seed : Msg → Bool) (l : List Msg) (x : Msg)
    (hx : x ∈ cascadeSurvivors seed l) :
    x ∈ l ∧ seed x = false ∧
      ∀ pid, x.parent = some pid → ∃ p ∈ cascadeSurvivors seed l, p.mid = pid := by
  obtain ⟨h1, h2⟩ := cascadeSurvivors_goodAcc seed l x hx
  exact ⟨(cascadeSurvivors_sublist seed l).subset hx, h1, h2⟩

/-! ## Invariant preservation -/

lemma StoreInv_empty : StoreInv emptyStore := by
  refine ⟨⟨List.Pairwise.nil, ?_, ?_⟩, ?_, ?_⟩ <;>
    intro x hx <;> exact absurd hx (List.not_mem_nil x)

lemma StoreInv_deleteMessages (seed : Msg → Bool) (s : Store) (h : StoreInv s) :
    StoreInv (deleteMessages seed s) := by
  obtain ⟨⟨hpw, hclk, hpar⟩, hhist, hed⟩ := h
  refine ⟨⟨?_, ?_, ?_⟩, ?_, ?_⟩
  · exact hpw.sublist (cascadeSurvivors_sublist seed s.messages)
  · intro m hm
    exact hclk m ((cascadeSurvivors_sublist seed s.messages).subset hm)
  · intro m hm pid hpid
    obtain ⟨hmem, _, hclo⟩ := mem_cascadeSurvivors seed s.messages m hm
    obtain ⟨p, hp1, hp2⟩ := hclo pid hpid
    obtain ⟨p0, _, _, hlt⟩ := hpar m hmem pid hpid
    exact ⟨p, hp1, hp2, hlt⟩
  · intro hr hmem
    obtain ⟨hr1, hr2⟩ := List.mem_filter.mp hmem
    obtain ⟨m, hm1, hm2⟩ := List.any_eq_true.mp hr2
    exact ⟨m, hm1, (show m.mid = hr.message by simpa using hm2).symm⟩
  · intro m hm
    have hms : m ∈ s.messages := (cascadeSurvivors_sublist seed s.messages).subset hm
    constructor
    · intro hedit
      obtain ⟨hr, hr1, hr2⟩ := (hed m hms).mp hedit
      refine ⟨hr, List.mem_filter.mpr ⟨hr1, ?_⟩, hr2⟩
      exact List.any_eq_true.mpr ⟨m, hm, by simpa using hr2.symm⟩
    · intro ⟨hr, hr1, hr2⟩
      exact (hed m hms).mpr ⟨hr, (List.mem_filter.mp hr1).1, hr2⟩

lemma StoreInv_purgeNotifs (u : String) (s : Store) (h : StoreInv s) :
    StoreInv (purgeNotifs u s) := h

lemma StoreInv_anonHistory (u : String) (s : Store) (h : StoreInv s) :
    StoreInv (anonHistory u s) := by
  obtain ⟨hwf, hhist, hed⟩ := h
  have hgm : ∀ hr : HistoryRow,
      (if hr.edited_by == some u then { hr with edited_by := none } else hr).message =
        hr.message := by
    intro hr
    split <;> rfl
  refine ⟨hwf, ?_, ?_⟩
  · intro hr hmem
    obtain ⟨hr0, hr01, rfl⟩ := List.mem_map.mp hmem
    rw [hgm]
    exact hhist hr0 hr01
  · intro m hm
    constructor
    · intro hedit
      obtain ⟨hr, hr1, hr2⟩ := (hed m hm).mp hedit
      refine ⟨_, List.mem_map_of_mem _ hr1, ?_⟩
      rw [hgm]
      exact hr2
    · intro ⟨hr, hr1, hr2⟩
      obtain ⟨hr0, hr01, rfl⟩ := List.mem_map.mp hr1
      rw [hgm] at hr2
      exact (hed m hm).mpr ⟨hr0, hr01, hr2⟩

lemma StoreInv_createMessage (s : Store) (sender receiver content : String)
    (parent : Option Nat)
    (hp : ∀ pid, parent = some pid → ∃ p ∈ s.messages, p.mid = pid)
    (h : StoreInv s) : StoreInv (createMessage s sender receiver content parent) := by
  obtain ⟨⟨hpw, hclk, hpar⟩, hhist, hed⟩ := h
  refine ⟨⟨?_, ?_, ?_⟩, ?_, ?_⟩
  · rw [createMessage_messages]
    rw [List.pairwise_append]
    refine ⟨hpw, List.pairwise_singleton _ _, ?_⟩
    intro a ha b hb
    rw [List.mem_singleton] at hb
    subst hb
    exact hclk a ha
  · rw [createMessage_messages, createMessage_clock]
    intro m hm
    rcases List.mem_append.mp hm with h1 | h2
    · exact Nat.lt_succ_of_lt (hclk m h1)
    · rw [List.mem_singleton] at h2
      subst h2
      exact Nat.lt_succ_self _
  · rw [createMessage_messages]
    intro m hm pid hpid
    rcases List.mem_append.mp hm with h1 | h2
    · obtain ⟨p, hp1, hp2, hp3⟩ := hpar m h1 pid hpid
      exact ⟨p, List.mem_append_left _ hp1, hp2, hp3⟩
    · rw [List.mem_singleton] at h2
      subst h2
      obtain ⟨p, hp1, hp2⟩ := hp pid hpid
      exact ⟨p, List.mem_append_left _ hp1, hp2, hp2 ▸ hclk p hp1⟩
  · rw [createMessage_messages, createMessage_history]
    intro hr hmem
    obtain ⟨m, hm1, hm2⟩ := hhist hr hmem
    exact ⟨m, List.mem_append_left _ hm1, hm2⟩
  · rw [createMessage_messages, createMessage_history]
    intro m hm
    rcases List.mem_append.mp hm with h1 | h2
    · exact hed m h1
    · rw [List.mem_singleton] at h2
      subst h2
      constructor
      · intro hfalse
        exact Bool.noConfusion hfalse
      · intro ⟨hr, hr1, hr2⟩
        obtain ⟨m0, hm01, hm02⟩ := hhist hr hr1
        have : m0.mid < s.clock := hclk m0 hm01
        rw [← hm02, hr2] at this
        exact absurd this (Nat.lt_irrefl _)

lemma StoreInv_mapPreserve (s : Store) (f : Msg → Msg)
    (hmid : ∀ m, (f m).mid = m.mid) (hparf : ∀ m, (f m).parent = m.parent)
    (hedf : ∀ m, (f m).edited = m.edited) (h : StoreInv s) :
    StoreInv { s with messages := s.messages.map f } := by
  obtain ⟨⟨hpw, hclk, hpar⟩, hhist, hed⟩ := h
  refine ⟨⟨?_, ?_, ?_⟩, ?_, ?_⟩
  · rw [List.pairwise_map]
    exact hpw.imp (fun hab => by rw [hmid, hmid]; exact hab)
  · intro m hm
    obtain ⟨x, hx, rfl⟩ := List.mem_map.mp hm
    rw [hmid]
    exact hclk x hx
  · intro m hm pid hpid
    obtain ⟨x, hx, rfl⟩ := List.mem_map.mp hm
    rw [hparf] at hpid
    obtain ⟨p, hp1, hp2, hp3⟩ := hpar x hx pid hpid
    refine ⟨f p, List.mem_map_of_mem f hp1, ?_, ?_⟩
    · rw [hmid]; exact hp2
    · rw [hmid]; exact hp3
  · intro hr hmem
    obtain ⟨m, hm1, hm2⟩ := hhist hr hmem
    exact ⟨f m, List.mem_map_of_mem f hm1, by rw [hmid]; exact hm2⟩
  · intro m hm
    obtain ⟨x, hx, rfl⟩ := List.mem_map.mp hm
    rw [hedf, hmid]
    exact hed x hx

lemma StoreInv_markAsRead (s : Store) (mid : Nat) (h : StoreInv s) :
    StoreInv (markAsRead s mid) := by
  refine StoreInv_mapPreserve s _ ?_ ?_ ?_ h <;> intro m <;> split <;> rfl

lemma StoreInv_markAsUnread (s : Store) (mid : Nat) (h : StoreInv s) :
    StoreInv (markAsUnread s mid) := by
  refine StoreInv_mapPreserve s _ ?_ ?_ ?_ h <;> intro m <;> split <;> rfl

lemma StoreInv_markAllReadStore (s : Store) (u : String) (h : StoreInv s) :
    StoreInv (markAllReadStore s u) := by
  refine StoreInv_mapPreserve s _ ?_ ?_ ?_ h <;> intro m <;> split <;> rfl

lemma StoreInv_editMessage (s : Store) (mid : Nat) (c : String) (h : StoreInv s) :
    StoreInv (editMessage s mid c) := by
  cases hfind : findMsg s mid with
  | none =>
      unfold editMessage
      rw [hfind]
      exact h
  | some old =>
      by_cases heq : old.content = c
      · unfold editMessage
        simp only [hfind]
        rw [if_pos heq]
        exact h
      · have hmm := findMsg_mem s mid old hfind
        obtain ⟨⟨hpw, hclk, hpar⟩, hhist, hed⟩ := h
        unfold editMessage
        simp only [hfind]
        rw [if_neg heq]
        set f : Msg → Msg := fun m =>
          if m.mid == mid then
            { m with content := c, edited := true, last_edited_at := some s.clock }
          else m with hf
        have fmid : ∀ x : Msg, (f x).mid = x.mid := by
          intro x
          show (if x.mid == mid then
            ({ x with content := c, edited := true, last_edited_at := some s.clock } : Msg)
            else x).mid = x.mid
          split <;> rfl
        have fpar : ∀ x : Msg, (f x).parent = x.parent := by
          intro x
          show (if x.mid == mid then
            ({ x with content := c, edited := true, last_edited_at := some s.clock } : Msg)
            else x).parent = x.parent
          split <;> rfl
        refine ⟨⟨?_, ?_, ?_⟩, ?_, ?_⟩
        · show (s.messages.map f).Pairwise _
          rw [List.pairwise_map]
          exact hpw.imp (fun hab => by rw [fmid, fmid]; exact hab)
        · intro m hm
          obtain ⟨x, hx, rfl⟩ := List.mem_map.mp hm
          rw [fmid]
          exact Nat.lt_succ_of_lt (hclk x hx)
        · intro m hm pid hpid
          obtain ⟨x, hx, rfl⟩ := List.mem_map.mp hm
          rw [fpar] at hpid
          obtain ⟨p, hp1, hp2, hp3⟩ := hpar x hx pid hpid
          refine ⟨f p, List.mem_map_of_mem f hp1, ?_, ?_⟩
          · rw [fmid]; exact hp2
          · rw [fmid]; exact hp3
        · intro hr hmem
          rcases List.mem_append.mp hmem with h1 | h2
          · obtain ⟨m0, hm01, hm02⟩ := hhist hr h1
            exact ⟨f m0, List.mem_map_of_mem f hm01, by rw [fmid]; exact hm02⟩
          · rw [List.mem_singleton] at h2
            subst h2
            refine ⟨f old, List.mem_map_of_mem f hmm.1, ?_⟩
            rw [fmid]
            exact hmm.2.symm
        · intro m hm
          obtain ⟨x, hx, rfl⟩ := List.mem_map.mp hm
          by_cases hx2 : x.mid = mid
          · have hfx : f x = { x with content := c, edited := true, last_edited_at := some s.clock } := by
              rw [hf]
              show (if x.mid == mid then _ else _) = _
              rw [if_pos (by simpa using hx2)]
            rw [hfx]
            constructor
            · intro _
              exact ⟨⟨s.clock, mid, old.content, s.clock, some old.sender⟩,
                List.mem_append_right _ (List.mem_singleton.mpr rfl), by simpa using hx2.symm⟩
            · intro _
              rfl
          · have hfx : f x = x := by
              rw [hf]
              show (if x.mid == mid then _ else _) = _
              rw [if_neg (by simpa using hx2)]
            rw [hfx]
            constructor
            · intro he
              obtain ⟨hr, hr1, hr2⟩ := (hed x hx).mp he
              exact ⟨hr, List.mem_append_left _ hr1, hr2⟩
            · intro ⟨hr, hr1, hr2⟩
              rcases List.mem_append.mp hr1 with h1 | h2
              · exact (hed x hx).mpr ⟨hr, h1, hr2⟩
              · rw [List.mem_singleton] at h2
                subst h2
                exact absurd hr2.symm hx2

/-- Every publicly reachable store satisfies the full invariant. -/
lemma reachable_inv (s : Store) (h : Reachable s) : StoreInv s := by
  induction h with
  | empty => exact StoreInv_empty
  | create s sender receiver content parent _ hp ih =>
      exact StoreInv_createMessage s sender receiver content parent hp ih
  | edit s mid c _ ih => exact StoreInv_editMessage s mid c ih
  | delMsg s mid _ ih => exact StoreInv_deleteMessages _ s ih
  | delUser s u _ ih =>
      exact StoreInv_anonHistory u _ (StoreInv_purgeNotifs u _
        (StoreInv_deleteMessages _ _ (StoreInv_deleteMessages _ s ih)))
  | markR s mid _ ih => exact StoreInv_markAsRead s mid ih
  | markU s mid _ ih => exact StoreInv_markAsUnread s mid ih
  | markAll s u _ ih => exact StoreInv_markAllReadStore s u ih

/-- C4: in every state reachable from the empty store through the public
operations, a message's `edited` flag is true exactly when at least one
`MessageHistory` row referencing it exists. -/
theorem C4_edited_iff_history (s : Store) (h : Reachable s) :
    ∀ m ∈ s.messages, m.edited = true ↔ ∃ hr ∈ s.history, hr.message = m.mid :=
  (reachable_inv s h).2.2

/-- Witness for `C4_edited_iff_history`: the edited message of the concrete
store `editS` carries `edited = true` and a matching history row. -/
theorem C4_edited_iff_history_witness :
    (⟨0, "a", "b", "y", 0, true, some 1, false, none⟩ : Msg).edited = true ↔
      ∃ hr ∈ editS.history, hr.message = (⟨0, "a", "b", "y", 0, true, some 1, false, none⟩ : Msg).mid :=
  C4_edited_iff_history editS
    (Reachable.edit _ 0 "y"
      (Reachable.create emptyStore "a" "b" "x" none Reachable.empty
        (fun pid hpid => Option.noConfusion hpid)))
    _ (by decide)

/-! ## Thread-root resolution -/

lemma findMsg_of_mem (s : Store) (m : Msg)
    (hm : m ∈ s.messages) : ∃ q, findMsg s m.mid = some q ∧ q ∈ s.messages ∧ q.mid = m.mid := by
  have hsome : (s.messages.find? (fun x => x.mid == m.mid)).isSome := by
    rw [List.find?_isSome]
    exact ⟨m, hm, by simp⟩
  obtain ⟨q, hq⟩ := Option.isSome_iff_exists.mp hsome
  refine ⟨q, hq, List.mem_of_find?_eq_some hq, ?_⟩
  have := List.find?_some hq
  simpa using this

lemma getRootFuel_total (s : Store) (hwf : WF s) :
    ∀ (k : Nat) (m : Msg), m ∈ s.messages → m.mid < k →
      ∃ r, getRootFuel k s m = some r ∧ r.parent = none ∧ r ∈ s.messages := by
  obtain ⟨_, _, hpar⟩ := hwf
  intro k
  induction k with
  | zero => exact fun m _ hlt => absurd hlt (Nat.not_lt_zero _)
  | succ j ih =>
      intro m hm hlt
      cases hp : m.parent with
      | none =>
          refine ⟨m, ?_, hp, hm⟩
          unfold getRootFuel
          rw [hp]
      | some pid =>
          obtain ⟨p, hp1, hp2, hp3⟩ := hpar m hm pid hp
          obtain ⟨q, hq, hqmem, hqmid⟩ := findMsg_of_mem s p hp1
          have hqlt : q.mid < j := by
            rw [hqmid, hp2]
            omega
          obtain ⟨r, hr1, hr2, hr3⟩ := ih q hqmem hqlt
          refine ⟨r, ?_, hr2, hr3⟩
          unfold getRootFuel
          rw [hp]
          show (match findMsg s pid with
            | none => none
            | some p => getRootFuel j s p) = some r
          rw [show findMsg s pid = some q from hp2 ▸ hq]
          exact hr1

/-- C5 (amended): in every reachable store the parent relation is acyclic
by construction (a parent is always an earlier message), so
`get_thread_root` terminates for every stored message — fuel equal to the
id counter suffices and the result is a parentless root.  The source walks
the chain with no cycle check, so termination holds only because reachable
data is acyclic. -/
theorem C5_root_walk_terminates (s : Store) (m : Msg) (h : Reachable s)
    (hm : m ∈ s.messages) :
    ∃ r, getRootFuel s.clock s m = some r ∧ r.parent = none ∧ r ∈ s.messages := by
  have hinv := reachable_inv s h
  exact getRootFuel_total s hinv.1 s.clock m hm (hinv.1.2.1 m hm)

/-- Witness for `C5_root_walk_terminates` on the two-message store
`replyS`. -/
theorem C5_root_walk_terminates_witness :
    ∃ r, getRootFuel replyS.clock replyS ⟨1, "b", "c", "yo", 1, false, none, false, some 0⟩ =
        some r ∧ r.parent = none ∧ r ∈ replyS.messages :=
  C5_root_walk_terminates replyS _
    (Reachable.create _ "b" "c" "yo" (some 0)
      (Reachable.create emptyStore "a" "b" "hi" none Reachable.empty
        (fun pid hpid => Option.noConfusion hpid))
      (fun pid hpid => by
        cases hpid
        exact ⟨⟨0, "a", "b", "hi", 0, false, none, false, none⟩, by decide, rfl⟩))
    (by decide)

lemma cycS_no_fuel : ∀ n, getRootFuel n cycS cycM = none := by
  intro n
  induction n with
  | zero => rfl
  | succ j ih =>
      unfold getRootFuel
      show (match findMsg cycS 0 with
        | none => none
        | some p => getRootFuel j cycS p) = none
      rw [show findMsg cycS 0 = some cycM from rfl]
      exact ih

/-- C5 (counterexample): on the corrupt store whose single message is its
own parent, `get_thread_root` never finishes for any amount of fuel — the
source loop would run forever instead of rejecting the cycle as a
data-integrity violation. -/
theorem C5_counterexample : ¬ RootWalkTerminates cycS cycM := by
  intro ⟨n, hn⟩
  rw [cycS_no_fuel n] at hn
  exact Bool.noConfusion hn

/-! ## User deletion -/

/-- C7: after `deleteUser(u)` no remaining message has `u` as sender or
receiver and every remaining message's parent also remains (so deleted
subtrees are gone transitively); no remaining notification targets `u`;
no remaining history row is still authored by `u`; and every original
history row whose owning message survives is kept, with `edited_by`
nulled exactly when it was `u`. -/
theorem C7_delete_user (s : Store) (u : String) :
    (∀ m ∈ (deleteUser s u).messages,
      m.sender ≠ u ∧ m.receiver ≠ u ∧
        ∀ pid, m.parent = some pid → ∃ p ∈ (deleteUser s u).messages, p.mid = pid) ∧
    (∀ n ∈ (deleteUser s u).notifications, n.user ≠ u) ∧
    (∀ hr ∈ (deleteUser s u).history, hr.edited_by ≠ some u) ∧
    (∀ hr ∈ s.history, ∀ m ∈ (deleteUser s u).messages, m.mid = hr.message →
      (if hr.edited_by == some u then { hr with edited_by := none } else hr) ∈
        (deleteUser s u).history) := by
  simp only [deleteUser, anonHistory, purgeNotifs, deleteMessages]
  refine ⟨?_, ?_, ?_, ?_⟩
  · intro m hm
    obtain ⟨hm1, hseed2, hclo⟩ := mem_cascadeSurvivors _ _ m hm
    obtain ⟨_, hseed1, _⟩ := mem_cascadeSurvivors _ _ m hm1
    refine ⟨by simpa using hseed1, by simpa using hseed2, hclo⟩
  · intro n hn
    have := (List.mem_filter.mp hn).2
    simpa using this
  · intro hr hmem
    obtain ⟨h0, _, rfl⟩ := List.mem_map.mp hmem
    by_cases hc : h0.edited_by = some u
    · simp [hc]
    · simp [hc]
  · intro hr hrs m hm hmid
    have hm1 : m ∈ cascadeSurvivors (fun m => m.sender == u) s.messages :=
      (cascadeSurvivors_sublist _ _).subset hm
    have hstep1 : hr ∈ s.history.filter (fun h =>
        (cascadeSurvivors (fun m => m.sender == u) s.messages).any
          (fun m => m.mid == h.message)) :=
      List.mem_filter.mpr ⟨hrs, List.any_eq_true.mpr ⟨m, hm1, by simpa using hmid⟩⟩
    have hstep2 : hr ∈ (s.history.filter (fun h =>
        (cascadeSurvivors (fun m => m.sender == u) s.messages).any
          (fun m => m.mid == h.message))).filter (fun h =>
        (cascadeSurvivors (fun m => m.receiver == u)
            (cascadeSurvivors (fun m => m.sender == u) s.messages)).any
          (fun m => m.mid == h.message)) :=
      List.mem_filter.mpr ⟨hstep1, List.any_eq_true.mpr ⟨m, hm, by simpa using hmid⟩⟩
    exact List.mem_map_of_mem _ hstep2

/-- Witness for `C7_delete_user` at the concrete store `duS` with
`deleteUser duS "c"`: the surviving message between `a` and `b` keeps its
history row, authored by `a`. -/
theorem C7_delete_user_witness :
    ((⟨0, "a", "b", "y", 0, true, some 1, false, none⟩ : Msg).sender ≠ "c" ∧
      (⟨0, "a", "b", "y", 0, true, some 1, false, none⟩ : Msg).receiver ≠ "c" ∧
      ∀ pid, (⟨0, "a", "b", "y", 0, true, some 1, false, none⟩ : Msg).parent = some pid →
        ∃ p ∈ (deleteUser duS "c").messages, p.mid = pid) ∧
    (if (⟨1, 0, "x", 1, some "a"⟩ : HistoryRow).edited_by == some "c" then
        { (⟨1, 0, "x", 1, some "a"⟩ : HistoryRow) with edited_by := none }
      else (⟨1, 0, "x", 1, some "a"⟩ : HistoryRow)) ∈ (deleteUser duS "c").history :=
  ⟨(C7_delete_user duS "c").1 ⟨0, "a", "b", "y", 0, true, some 1, false, none⟩ (by decide),
   (C7_delete_user duS "c").2.2.2 ⟨1, 0, "x", 1, some "a"⟩ (by decide)
     ⟨0, "a", "b", "y", 0, true, some 1, false, none⟩ (by decide) rfl⟩

/-! ## Total reply count -/

lemma mem_directReplies (s : Store) (mid : Nat) (r : Msg)
    (hr : r ∈ directReplies s mid) : r ∈ s.messages ∧ r.parent = some mid := by
  obtain ⟨h1, h2⟩ := List.mem_filter.mp hr
  exact ⟨h1, by simpa using h2⟩

lemma directReply_mid_gt (s : Store) (hwf : WF s) (mid : Nat) (r : Msg)
    (hr : r ∈ directReplies s mid) : mid < r.mid := by
  obtain ⟨h1, h2⟩ := mem_directReplies s mid r hr
  obtain ⟨p, _, _, hlt⟩ := hwf.2.2 r h1 mid h2
  exact hlt

lemma directReplies_nil_of_ge (s : Store) (hwf : WF s) (mid : Nat)
    (hge : s.clock ≤ mid) : directReplies s mid = [] := by
  rw [directReplies, List.filter_eq_nil_iff]
  intro m hm hcon
  have hpar : m.parent = some mid := by simpa using hcon
  obtain ⟨p, hp1, hp2, _⟩ := hwf.2.2 m hm mid hpar
  have hplt : p.mid < s.clock := hwf.2.1 p hp1
  rw [hp2] at hplt
  omega

lemma totalReplyCount_zero_of_ge (s : Store) (hwf : WF s) (mid : Nat)
    (hge : s.clock ≤ mid) : ∀ n, totalReplyCount n s mid = 0 := by
  intro n
  cases n with
  | zero => rfl
  | succ j =>
      show (directReplies s mid).length +
        ((directReplies s mid).map (fun r => totalReplyCount j s r.mid)).sum = 0
      rw [directReplies_nil_of_ge s hwf mid hge]
      rfl

lemma totalReplyCount_stable (s : Store) (hwf : WF s) :
    ∀ (k mid n : Nat), s.clock - mid ≤ k → s.clock - mid ≤ n →
      totalReplyCount k s mid = totalReplyCount n s mid := by
  intro k
  induction k with
  | zero =>
      intro mid n hk hn
      have hge : s.clock ≤ mid := by omega
      rw [totalReplyCount_zero_of_ge s hwf mid hge 0,
        totalReplyCount_zero_of_ge s hwf mid hge n]
  | succ j ih =>
      intro mid n hk hn
      by_cases hge : s.clock ≤ mid
      · rw [totalReplyCount_zero_of_ge s hwf mid hge (j + 1),
          totalReplyCount_zero_of_ge s hwf mid hge n]
      · have hlt : mid < s.clock := Nat.lt_of_not_le hge
        cases n with
        | zero => omega
        | succ i =>
            have hmap : (directReplies s mid).map (fun r => totalReplyCount j s r.mid) =
                (directReplies s mid).map (fun r => totalReplyCount i s r.mid) := by
              apply List.map_congr_left
              intro r hrmem
              have hgt := directReply_mid_gt s hwf mid r hrmem
              exact ih r.mid i (by omega) (by omega)
            show (directReplies s mid).length +
                ((directReplies s mid).map (fun r => totalReplyCount j s r.mid)).sum =
              (directReplies s mid).length +
                ((directReplies s mid).map (fun r => totalReplyCount i s r.mid)).sum
            rw [hmap]

/-- C8: in every reachable store, `get_total_reply_count` satisfies the
recurrence `total(root) = Σ over direct replies r of (1 + total(r))` —
the count of all transitive descendants of `root`. -/
theorem C8_total_reply_recurrence (s : Store) (mid : Nat) (h : Reachable s) :
    totalReplyCount s.clock s mid =
      ((directReplies s mid).map (fun r => 1 + totalReplyCount s.clock s r.mid)).sum := by
  have hwf := (reachable_inv s h).1
  have hsum : ∀ (l : List Msg) (f : Msg → Nat),
      (l.map (fun r => 1 + f r)).sum = l.length + (l.map f).sum := by
    intro l f
    induction l with
    | nil => rfl
    | cons x xs ih =>
        simp only [List.map_cons, List.sum_cons, List.length_cons, ih]
        omega
  rw [hsum]
  cases hc : s.clock with
  | zero =>
      have hnil : directReplies s mid = [] := by
        rw [directReplies, List.filter_eq_nil_iff]
        intro m hm _
        have hlt := hwf.2.1 m hm
        rw [hc] at hlt
        exact absurd hlt (Nat.not_lt_zero _)
      rw [hnil]
      rfl
  | succ c =>
      have hmap : (directReplies s mid).map (fun r => totalReplyCount c s r.mid) =
          (directReplies s mid).map (fun r => totalReplyCount (c + 1) s r.mid) := by
        apply List.map_congr_left
        intro r hrmem
        have hgt := directReply_mid_gt s hwf mid r hrmem
        exact totalReplyCount_stable s hwf c r.mid (c + 1) (by omega) (by omega)
      show (directReplies s mid).length +
          ((directReplies s mid).map (fun r => totalReplyCount c s r.mid)).sum =
        (directReplies s mid).length +
          ((directReplies s mid).map (fun r => totalReplyCount (c + 1) s r.mid)).sum
      rw [hmap]

/-- Witness for `C8_total_reply_recurrence` on the two-message store
`replyS` at its root. -/
theorem C8_total_reply_recurrence_witness :
    totalReplyCount replyS.clock replyS 0 =
      ((directReplies replyS 0).map (fun r => 1 + totalReplyCount replyS.clock replyS r.mid)).sum :=
  C8_total_reply_recurrence replyS 0
    (Reachable.create _ "b" "c" "yo" (some 0)
      (Reachable.create emptyStore "a" "b" "hi" none Reachable.empty
        (fun pid hpid => Option.noConfusion hpid))
      (fun pid hpid => by
        cases hpid
        exact ⟨⟨0, "a", "b", "hi", 0, false, none, false, none⟩, by decide, rfl⟩))
